import Mathlib

/-!
Shallow embedding of the pyRevit script
`Parameter Copy-SDA.extension/Parameter Copy.tab/Tools.panel/Copy Parameter.pushbutton/script.py`.

The script copies parameter values from one Revit element to several
target elements.  We model the host (Revit) object model explicitly:

* an `Element` is an id together with a list of `Param`s;
* a `Param` carries its definition name (possibly null), its
  `StorageType`, its read-only flag and its current stored value;
* a `Doc` is the list of elements reachable through `doc.GetElement`;
* host calls that can raise (`AsDouble`/`AsInteger`/`AsString`/
  `AsElementId` reads and `Parameter.Set` writes) are mediated by a
  `Host` oracle that says, for any given call, whether the host raises
  and with which message.  A raising call performs no mutation
  (host operations are atomic).

Python `str.strip()` / `str.lower()` are modelled character-wise on
`String.data`.
-/

namespace ParamCopy

/-- Python-level whitespace test used by `str.strip()` (ASCII subset). -/
def isPyWs (c : Char) : Bool :=
  c.toNat = 32 || c.toNat = 9 || c.toNat = 10 || c.toNat = 13 || c.toNat = 11 || c.toNat = 12

/-- Model of `str.lower()` on a single character (ASCII case map). -/
def pyLowerChar (c : Char) : Char :=
  if 65 ≤ c.toNat ∧ c.toNat ≤ 90 then Char.ofNat (c.toNat + 32) else c

/-- Model of `str.lower()` on a character list. -/
def pyLowerL (l : List Char) : List Char := l.map pyLowerChar

/-- Model of `str.strip()` on a character list: drop leading and trailing whitespace. -/
def pyStripL (l : List Char) : List Char :=
  ((l.dropWhile isPyWs).reverse.dropWhile isPyWs).reverse

/-- Model of Python `s.lower()`. -/
def pyLower (s : String) : String := ⟨pyLowerL s.data⟩

/-- Model of Python `s.strip()`. -/
def pyStrip (s : String) : String := ⟨pyStripL s.data⟩

theorem toNat_pyLowerChar_upper {c : Char} (h1 : 65 ≤ c.toNat) (h2 : c.toNat ≤ 90) :
    (pyLowerChar c).toNat = c.toNat + 32 := by
  have hv : (c.toNat + 32).isValidChar := Or.inl (by omega)
  simp only [pyLowerChar, if_pos (And.intro h1 h2)]
  unfold Char.ofNat
  rw [dif_pos hv]
  rfl

theorem isPyWs_pyLowerChar (c : Char) : isPyWs (pyLowerChar c) = isPyWs c := by
  by_cases h : 65 ≤ c.toNat ∧ c.toNat ≤ 90
  · have ht := toNat_pyLowerChar_upper h.1 h.2
    have hl : isPyWs (pyLowerChar c) = false := by
      simp only [isPyWs, ht, Bool.or_eq_false_iff, decide_eq_false_iff_not]
      omega
    have hr : isPyWs c = false := by
      simp only [isPyWs, Bool.or_eq_false_iff, decide_eq_false_iff_not]
      omega
    rw [hl, hr]
  · simp [pyLowerChar, h]

theorem pyLowerChar_idem (c : Char) : pyLowerChar (pyLowerChar c) = pyLowerChar c := by
  by_cases h : 65 ≤ c.toNat ∧ c.toNat ≤ 90
  · have ht := toNat_pyLowerChar_upper h.1 h.2
    conv_lhs => rw [pyLowerChar]
    rw [if_neg]
    omega
  · simp only [pyLowerChar, if_neg h]

theorem pyLowerL_idem (l : List Char) : pyLowerL (pyLowerL l) = pyLowerL l := by
  simp only [pyLowerL, List.map_map]
  exact List.map_congr_left fun c _ => pyLowerChar_idem c

theorem pyStripL_pyLowerL (l : List Char) : pyStripL (pyLowerL l) = pyLowerL (pyStripL l) := by
  have hws : (fun c => isPyWs (pyLowerChar c)) = isPyWs := funext isPyWs_pyLowerChar
  simp only [pyStripL, pyLowerL, List.dropWhile_map, Function.comp_def, hws,
    ← List.map_reverse]

theorem pyLower_idem (s : String) : pyLower (pyLower s) = pyLower s := by
  simp only [pyLower, pyLowerL_idem]

theorem pyStrip_pyLower (s : String) : pyStrip (pyLower s) = pyLower (pyStrip s) := by
  simp only [pyStrip, pyLower, pyStripL_pyLowerL]

theorem pyLower_ne_empty {s : String} (h : s ≠ "") : pyLower s ≠ "" := by
  intro he
  apply h
  have hd : pyLowerL s.data = ([] : List Char) := congrArg String.data he
  have h0 : s.data = [] := by
    have hlen := congrArg List.length hd
    simp only [pyLowerL, List.length_map, List.length_nil] at hlen
    exact List.eq_nil_of_length_eq_zero hlen
  cases s with
  | mk l => exact congrArg String.mk h0

/-! ## Host data model -/

/-- Revit `StorageType` values (`None` is the unsupported sentinel). -/
inductive StorageType
  | double
  | integer
  | string
  | elementId
  | noneType
deriving DecidableEq

/-- A Python-level value as read from / written to a parameter:
`float`, `int`, `str`, `ElementId` (its integer value), or `None`.
`ElementId` values are identified with their integer id; the Revit
`InvalidElementId` sentinel is id `-1`. -/
inductive PyVal
  | float (x : Int)
  | int (n : Int)
  | str (s : String)
  | eid (i : Int)
  | none
deriving DecidableEq

/-- A Revit parameter: definition name (may be null), storage type,
read-only flag, and the currently stored value. -/
structure Param where
  name : Option String
  storageType : StorageType
  isReadOnly : Bool
  value : PyVal
deriving DecidableEq

/-- A Revit element: its id and its parameter collection, in
enumeration order. -/
structure Element where
  id : Int
  params : List Param
deriving DecidableEq

/-- The document: the collection of elements `doc.GetElement` can see. -/
def Doc := List Element

/-- `doc.GetElement(id)`: the first element with the given id, if any. -/
def getElem : Doc → Int → Option Element
  | [], _ => Option.none
  | e :: es, i => if e.id = i then some e else getElem es i

/-- In-place mutation of an element seen through the document: replace
every stored element with the same id by the updated one. -/
def updateElem (d : Doc) (x : Element) : Doc :=
  d.map fun e => if e.id = x.id then x else e

theorem getElem_eq_some_id {d : Doc} {i : Int} {e : Element}
    (h : getElem d i = some e) : e.id = i := by
  induction d with
  | nil => simp [getElem] at h
  | cons a as ih =>
    simp only [getElem] at h
    split at h
    · cases h; assumption
    · exact ih h

theorem getElem_updateElem_isSome (d : Doc) (x : Element) (i : Int) :
    (getElem (updateElem d x) i).isSome = (getElem d i).isSome := by
  induction d with
  | nil => rfl
  | cons a as ih =>
    have hid : (if a.id = x.id then x else a).id = a.id := by
      by_cases hax : a.id = x.id
      · rw [if_pos hax, hax]
      · rw [if_neg hax]
    simp only [updateElem, List.map_cons, getElem, hid]
    by_cases hai : a.id = i
    · simp [if_pos hai]
    · rw [if_neg hai, if_neg hai]
      exact ih

/-! ## Script helpers (`_clean`, `_is_blocked`, `_storage_label`) -/

/-- `BLOCKED_NAMES` from the script's CONFIG section. -/
def BLOCKED_NAMES : List String := ["Bauteilebene", "Arbeitsebene"]

/-- `_clean(s)` for a string argument: `(s or u"").strip()`. -/
def cleanS (s : String) : String := pyStrip s

/-- `_clean(s)` where `s` may be Python `None` (e.g. `p.Definition.Name`). -/
def cleanName (s : Option String) : String := pyStrip (s.getD "")

/-- `_is_blocked(name)`: the cleaned, lowered name equals the cleaned,
lowered form of some `BLOCKED_NAMES` entry. -/
def isBlocked (name : String) : Bool :=
  BLOCKED_NAMES.any fun b => pyLower (cleanS name) = pyLower (cleanS b)

/-- `_storage_label(st)`. -/
def storageLabel : StorageType → String
  | .double => "Double"
  | .integer => "Integer"
  | .string => "String"
  | .elementId => "ElementId"
  | .noneType => "None"

/-- `_param_names_lower(elem)`: the set of cleaned, lowered parameter
names of an element, skipping empty and blocked names. -/
def paramNamesLower (e : Element) : Finset String :=
  e.params.foldl
    (fun out p =>
      let n := cleanName p.name
      if n = "" ∨ isBlocked n then out else insert (pyLower n) out)
    ∅

/-! ## Source parameter catalogue (`_build_source_param_map`) -/

/-- The engine's per-parameter descriptor `{name, display}`. -/
structure ParamDescriptor where
  name : String
  display : String
deriving DecidableEq

/-- Dictionary lookup for the catalogue (first entry with the key). -/
def assocLookup : List (String × ParamDescriptor) → String → Option ParamDescriptor
  | [], _ => Option.none
  | kv :: rest, k => if kv.1 = k then some kv.2 else assocLookup rest k

/-- The descriptor recorded for a source parameter whose cleaned name is
`name`: `u"{}   [{} | {}]".format(name, st, ro)`. -/
def descOf (p : Param) (name : String) : ParamDescriptor :=
  { name := name
    display := name ++ "   [" ++ storageLabel p.storageType ++ " | " ++
      (if p.isReadOnly then "RO" else "RW") ++ "]" }

/-- The body of `_build_source_param_map`'s loop, processing parameters
in enumeration order while threading the dictionary `m`. -/
def buildMapAux (m : List (String × ParamDescriptor)) :
    List Param → List (String × ParamDescriptor)
  | [] => m
  | p :: ps =>
    let name := cleanName p.name
    if name = "" ∨ isBlocked name then buildMapAux m ps
    else
      let key := pyLower name
      if (assocLookup m key).isSome then buildMapAux m ps
      else buildMapAux (m ++ [(key, descOf p name)]) ps

/-- `_build_source_param_map(source)`: mapping lower name ↦ descriptor. -/
def buildSourceParamMap (source : Element) : List (String × ParamDescriptor) :=
  buildMapAux [] source.params

/-! ## Parameter lookup and value access -/

/-- `elem.LookupParameter(name)`: the first parameter whose definition
name is exactly the given string (the host lookup is name-exact). -/
def lookupParamList : List Param → String → Option Param
  | [], _ => Option.none
  | p :: ps, n => if p.name = some n then some p else lookupParamList ps n

/-- `LookupParameter` on an element. -/
def lookupParameter (e : Element) (n : String) : Option Param :=
  lookupParamList e.params n

/-- In-place mutation of the parameter object returned by
`LookupParameter`: replace the first parameter with that name. -/
def replaceFirstParam : List Param → String → Param → List Param
  | [], _, _ => []
  | p :: ps, n, q => if p.name = some n then q :: ps else p :: replaceFirstParam ps n q

/-- The element as seen after mutating its looked-up parameter. -/
def setLookedUp (e : Element) (n : String) (q : Param) : Element :=
  { e with params := replaceFirstParam e.params n q }

/-- `_get_param_value(p)`: dispatch on `StorageType`; the typed
accessors return the currently stored value, unknown storage yields
`None`. -/
def getParamValue (p : Param) : PyVal :=
  match p.storageType with
  | .double => p.value
  | .integer => p.value
  | .string => p.value
  | .elementId => p.value
  | .noneType => PyVal.none

/-- Host oracle: which primitive host calls raise, and with what
message.  `getFails p = some e` means the typed read accessor on `p`
raises `e`; `setFails p v = some e` means `p.Set(v)` raises `e`.
A raising call mutates nothing. -/
structure Host where
  getFails : Param → Option String
  setFails : Param → PyVal → Option String

/-- A typed read (`AsDouble`/`AsInteger`/`AsString`/`AsElementId` or the
`None` fallback) under the host oracle. -/
def hostGetValue (h : Host) (p : Param) : Except String PyVal :=
  match h.getFails p with
  | some e => Except.error e
  | Option.none => Except.ok (getParamValue p)

/-- `p.Set(v)` under the host oracle: either raises, or stores `v`. -/
def hostSet (h : Host) (p : Param) (v : PyVal) : Except String Param :=
  match h.setFails p v with
  | some e => Except.error e
  | Option.none => Except.ok { p with value := v }

/-- `_set_param_value(p, value)`: dispatch on `StorageType`; known kinds
write and report `True` (a String write substitutes `""` for a `None`
value first); unknown storage writes nothing and reports `False`. -/
def setParamValue (h : Host) (p : Param) (v : PyVal) : Except String (Param × Bool) :=
  match p.storageType with
  | .double => (hostSet h p v).map fun p2 => (p2, true)
  | .integer => (hostSet h p v).map fun p2 => (p2, true)
  | .string =>
    (hostSet h p (if v = PyVal.none then PyVal.str "" else v)).map fun p2 => (p2, true)
  | .elementId => (hostSet h p v).map fun p2 => (p2, true)
  | .noneType => Except.ok (p, false)

/-- The ElementId safety check of `_try_copy_by_name`: the source value
is a truthy ElementId other than `InvalidElementId` (id `-1`) that does
not resolve in the document. -/
def unresolvedRef (d : Doc) (sp : Param) (val : PyVal) : Bool :=
  sp.storageType = StorageType.elementId &&
    (match val with
     | PyVal.eid i => decide (i ≠ -1) && (getElem d i).isNone
     | _ => false)

/-- The `try:` block of `_try_copy_by_name`: read the source value,
apply the ElementId guard, then write.  Yields the (possibly updated)
target parameter, the ok flag and the reason; raises are propagated to
the caller's `except`. -/
def tryCopyCore (h : Host) (d : Doc) (sp tp : Param) :
    Except String (Param × Bool × String) :=
  match hostGetValue h sp with
  | Except.error e => Except.error e
  | Except.ok val =>
    if unresolvedRef d sp val then Except.ok (tp, false, "elementid not in doc")
    else
      match setParamValue h tp val with
      | Except.error e => Except.error e
      | Except.ok (tp2, okSet) =>
        if okSet then Except.ok (tp2, true, "") else Except.ok (tp2, false, "unsupported")

/-- `_try_copy_by_name(src_elem, dst_elem, pname)`: returns the target
element as left after the call, the ok flag and the reason string. -/
def tryCopyByName (h : Host) (d : Doc) (srcElem dstElem : Element) (pname0 : String) :
    Element × Bool × String :=
  let pname := cleanS pname0
  if pname = "" ∨ isBlocked pname then (dstElem, false, "blocked/empty")
  else
    match lookupParameter srcElem pname, lookupParameter dstElem pname with
    | Option.none, _ => (dstElem, false, "missing")
    | some _, Option.none => (dstElem, false, "missing")
    | some sp, some tp =>
      if tp.isReadOnly then (dstElem, false, "read-only")
      else if sp.storageType ≠ tp.storageType then (dstElem, false, "type mismatch")
      else
        match tryCopyCore h d sp tp with
        | Except.error e => (dstElem, false, e)
        | Except.ok (tp2, ok, why) => (setLookedUp dstElem pname tp2, ok, why)

/-! ## Common-name intersection (step 3 of the script) -/

/-- `set(src_map.keys())`. -/
def srcMapKeys (source : Element) : Finset String :=
  ((buildSourceParamMap source).map Prod.fst).toFinset

/-- The intersection loop: start from the source catalogue keys and
intersect with `_param_names_lower` of every target that resolves;
unresolvable target ids are skipped. -/
def commonKeysFrom (d : Doc) (acc : Finset String) (targetIds : List Int) : Finset String :=
  targetIds.foldl
    (fun acc tid =>
      match getElem d tid with
      | Option.none => acc
      | some tgt => acc ∩ paramNamesLower tgt)
    acc

/-- `common_keys` as computed by the script for a source and targets. -/
def commonKeys (d : Doc) (source : Element) (targetIds : List Int) : Finset String :=
  commonKeysFrom d (srcMapKeys source) targetIds

/-! ## Apply-copy loop (step 5 of the script) -/

/-- The run counters and the sampled failures. -/
structure RunTotals where
  elemUpdated : Nat
  elemSkipped : Nat
  setsOk : Nat
  setsFail : Nat
  failSamples : List String
deriving DecidableEq

/-- All counters zero, no samples. -/
def initTotals : RunTotals := ⟨0, 0, 0, 0, []⟩

/-- The failure reasons the report samples. -/
def sampledReasons : List String :=
  ["missing", "read-only", "type mismatch", "elementid not in doc"]

/-- The inner `for pname in picked_names` loop for one target element,
threading the document, the (mutated) target, the totals and `ok_any`. -/
def fieldLoop (h : Host) (src : Element) :
    List String → Doc → Element → RunTotals → Bool → Doc × Element × RunTotals × Bool
  | [], d, tgt, t, okAny => (d, tgt, t, okAny)
  | pname :: rest, d, tgt, t, okAny =>
    let r := tryCopyByName h d src tgt pname
    let tgt2 := r.1
    let d2 := updateElem d tgt2
    if r.2.1 then
      fieldLoop h src rest d2 tgt2 { t with setsOk := t.setsOk + 1 } true
    else
      let why := r.2.2
      let t2 : RunTotals :=
        { t with
          setsFail := t.setsFail + 1
          failSamples :=
            if why ∈ sampledReasons ∧ t.failSamples.length < 10 then
              t.failSamples ++ [pname ++ " -> " ++ why]
            else t.failSamples }
      fieldLoop h src rest d2 tgt2 t2 okAny

/-- The outer `for tid in target_ids` loop: resolve the target (counting
unresolvable ids as skipped), run all field copies, then count the
element as updated or skipped according to `ok_any`. -/
def applyLoop (h : Host) (src : Element) (names : List String) :
    List Int → Doc → RunTotals → Doc × RunTotals
  | [], d, t => (d, t)
  | tid :: rest, d, t =>
    match getElem d tid with
    | Option.none =>
      applyLoop h src names rest d { t with elemSkipped := t.elemSkipped + 1 }
    | some tgt =>
      let r := fieldLoop h src names d tgt t false
      let t2 := r.2.2.1
      let t3 :=
        if r.2.2.2 then { t2 with elemUpdated := t2.elemUpdated + 1 }
        else { t2 with elemSkipped := t2.elemSkipped + 1 }
      applyLoop h src names rest r.1 t3

/-! ## Target picking loop (step 2 of the script) -/

/-- One user interaction in the picking loop: a pick resolving to an
element id, or the ESC cancel signal. -/
inductive PickEvent
  | picked (eid : Int)
  | cancelled

/-- The body of one picking iteration: drop unresolvable picks and picks
of the source element, toggle membership otherwise. -/
def toggleStep (d : Doc) (srcId : Int) (ids : List Int) (eid : Int) : List Int :=
  match getElem d eid with
  | Option.none => ids
  | some e =>
    if e.id = srcId then ids
    else if e.id ∈ ids then ids.erase e.id
    else ids ++ [e.id]

/-- The picking loop: process pick events until the cancel signal. -/
def pickTargets (d : Doc) (srcId : Int) : List PickEvent → List Int → List Int
  | [], ids => ids
  | PickEvent.cancelled :: _, ids => ids
  | PickEvent.picked eid :: rest, ids => pickTargets d srcId rest (toggleStep d srcId ids eid)

/-! ## Helper lemmas -/

theorem replaceFirstParam_self {ps : List Param} {n : String} {p : Param}
    (h : lookupParamList ps n = some p) : replaceFirstParam ps n p = ps := by
  induction ps with
  | nil => simp [lookupParamList] at h
  | cons a as ih =>
    simp only [lookupParamList] at h
    simp only [replaceFirstParam]
    split
    · rw [if_pos (by assumption)] at h
      cases h
      rfl
    · rw [if_neg (by assumption)] at h
      rw [ih h]

theorem setLookedUp_self {e : Element} {n : String} {p : Param}
    (h : lookupParameter e n = some p) : setLookedUp e n p = e := by
  cases e with
  | mk i ps =>
    simp only [setLookedUp, replaceFirstParam_self h]

theorem setParamValue_ok_false {h : Host} {p : Param} {v : PyVal} {p2 : Param}
    (hs : setParamValue h p v = Except.ok (p2, false)) : p2 = p := by
  cases hst : p.storageType <;> simp only [setParamValue, hst, Except.map] at hs
  case double =>
    cases hhost : hostSet h p v <;> rw [hhost] at hs <;> simp at hs
  case integer =>
    cases hhost : hostSet h p v <;> rw [hhost] at hs <;> simp at hs
  case string =>
    cases hhost : hostSet h p (if v = PyVal.none then PyVal.str "" else v) <;>
      rw [hhost] at hs <;> simp at hs
  case elementId =>
    cases hhost : hostSet h p v <;> rw [hhost] at hs <;> simp at hs
  case noneType =>
    cases hs
    rfl

theorem tryCopyCore_ok_false {h : Host} {d : Doc} {sp tp tp2 : Param} {why : String}
    (hc : tryCopyCore h d sp tp = Except.ok (tp2, false, why)) : tp2 = tp := by
  simp only [tryCopyCore] at hc
  cases hg : hostGetValue h sp with
  | error e =>
    simp only [hg] at hc
    cases hc
  | ok val =>
  simp only [hg] at hc
  by_cases hu : unresolvedRef d sp val = true
  · rw [if_pos hu] at hc
    cases hc
    rfl
  · rw [if_neg hu] at hc
    cases hs : setParamValue h tp val with
    | error e2 =>
      simp only [hs] at hc
      cases hc
    | ok pr =>
      simp only [hs] at hc
      obtain ⟨q, b⟩ := pr
      cases b
      · simp only [Bool.false_eq_true, if_false] at hc
        cases hc
        exact setParamValue_ok_false hs
      · simp only [if_pos rfl] at hc
        simp at hc

/-- Case analysis of `_try_copy_by_name`: either it fails and returns
the destination unchanged, or it reports success. -/
theorem tryCopyByName_shape (h : Host) (d : Doc) (src dst : Element) (n : String) :
    ((tryCopyByName h d src dst n).1 = dst ∧ (tryCopyByName h d src dst n).2.1 = false) ∨
    (tryCopyByName h d src dst n).2.1 = true := by
  simp only [tryCopyByName]
  split
  · exact Or.inl ⟨rfl, rfl⟩
  · split
    · exact Or.inl ⟨rfl, rfl⟩
    · exact Or.inl ⟨rfl, rfl⟩
    · rename_i sp tp hsp htp
      split
      · exact Or.inl ⟨rfl, rfl⟩
      · split
        · exact Or.inl ⟨rfl, rfl⟩
        · split
          · exact Or.inl ⟨rfl, rfl⟩
          · rename_i tp2 ok why hcore
            cases ok
            · refine Or.inl ⟨?_, rfl⟩
              simp only
              rw [tryCopyCore_ok_false hcore]
              exact setLookedUp_self htp
            · exact Or.inr rfl

/-- Claim C1. For every source element, destination element and parameter
name, whenever `_try_copy_by_name` returns `ok = false` — on any of its
failure paths (blocked/empty, missing, read-only, type mismatch,
unresolved ElementId reference, unsupported storage, or a caught host
exception) — the destination element it returns is exactly the
destination it was given: no parameter of `dst` has been written. -/
theorem copyField_fail_no_mutation (h : Host) (d : Doc) (src dst : Element) (n : String)
    (hfail : (tryCopyByName h d src dst n).2.1 = false) :
    (tryCopyByName h d src dst n).1 = dst := by
  rcases tryCopyByName_shape h d src dst n with ⟨h1, _⟩ | htrue
  · exact h1
  · rw [htrue] at hfail
    cases hfail

/-- Witness for C1 at a concrete failing call: copying parameter
`"Width"` between a Double source and an Integer target fails and
leaves the target untouched. -/
theorem copyField_fail_no_mutation_witness :
    (tryCopyByName ⟨fun _ => Option.none, fun _ _ => Option.none⟩
        [⟨1, [⟨some "Width", StorageType.double, false, PyVal.float 5⟩]⟩]
        ⟨1, [⟨some "Width", StorageType.double, false, PyVal.float 5⟩]⟩
        ⟨2, [⟨some "Width", StorageType.integer, false, PyVal.int 3⟩]⟩ "Width").1 =
      ⟨2, [⟨some "Width", StorageType.integer, false, PyVal.int 3⟩]⟩ :=
  copyField_fail_no_mutation _ _ _ _ _ (by decide)

/-- Claim C2. If the looked-up source and target parameters have
different `StorageType`s then `_try_copy_by_name` (i) returns the
destination unchanged, (ii) reports `ok = false`, (iii) produces a
result that does not depend on the host oracle at all — so no read or
write (and hence no coercion between storage types) is ever attempted —
and (iv) when the preceding guards pass (name non-empty and not
blocked, target writable) the reported reason is exactly
`"type mismatch"`. -/
theorem copyField_never_writes_on_type_mismatch (h : Host) (d : Doc) (src dst : Element)
    (n : String) (sp tp : Param)
    (hsp : lookupParameter src (cleanS n) = some sp)
    (htp : lookupParameter dst (cleanS n) = some tp)
    (hne : sp.storageType ≠ tp.storageType) :
    (tryCopyByName h d src dst n).1 = dst ∧
    (tryCopyByName h d src dst n).2.1 = false ∧
    (∀ h2 : Host, tryCopyByName h2 d src dst n = tryCopyByName h d src dst n) ∧
    (cleanS n ≠ "" → isBlocked (cleanS n) = false → tp.isReadOnly = false →
      tryCopyByName h d src dst n = (dst, false, "type mismatch")) := by
  have hred : ∀ h3 : Host, tryCopyByName h3 d src dst n =
      if cleanS n = "" ∨ isBlocked (cleanS n) = true then (dst, false, "blocked/empty")
      else if tp.isReadOnly = true then (dst, false, "read-only")
      else (dst, false, "type mismatch") := by
    intro h3
    simp only [tryCopyByName, hsp, htp]
    by_cases hb : cleanS n = "" ∨ isBlocked (cleanS n) = true
    · rw [if_pos hb, if_pos hb]
    · rw [if_neg hb, if_neg hb]
      by_cases hro : tp.isReadOnly = true
      · rw [if_pos hro, if_pos hro]
      · rw [if_neg hro, if_neg hro, if_pos hne]
  refine ⟨?_, ?_, ?_, ?_⟩
  · rw [hred h]
    split
    · rfl
    · split
      · rfl
      · rfl
  · rw [hred h]
    split
    · rfl
    · split
      · rfl
      · rfl
  · intro h2
    rw [hred h2, hred h]
  · intro hne2 hnb hro
    rw [hred h, if_neg (by simp [hne2, hnb]), if_neg (by simp [hro])]

/-- Witness for C2: a Double source `"Width"` against an Integer target
`"Width"` yields `(false, "type mismatch")` with the target unchanged. -/
theorem copyField_never_writes_on_type_mismatch_witness :
    tryCopyByName ⟨fun _ => Option.none, fun _ _ => Option.none⟩
        [⟨1, [⟨some "Width", StorageType.double, false, PyVal.float 5⟩]⟩]
        ⟨1, [⟨some "Width", StorageType.double, false, PyVal.float 5⟩]⟩
        ⟨2, [⟨some "Width", StorageType.integer, false, PyVal.int 3⟩]⟩ "Width" =
      (⟨2, [⟨some "Width", StorageType.integer, false, PyVal.int 3⟩]⟩, false, "type mismatch") :=
  (copyField_never_writes_on_type_mismatch _ _ _ _ "Width"
      ⟨some "Width", StorageType.double, false, PyVal.float 5⟩
      ⟨some "Width", StorageType.integer, false, PyVal.int 3⟩
      (by decide) (by decide) (by decide)).2.2.2
    (by decide) (by decide) (by decide)

theorem lookupParamList_name {ps : List Param} {n : String} {p : Param}
    (h : lookupParamList ps n = some p) : p.name = some n := by
  induction ps with
  | nil => simp [lookupParamList] at h
  | cons a as ih =>
    simp only [lookupParamList] at h
    split at h
    · cases h
      assumption
    · exact ih h

theorem lookupParameter_name {e : Element} {n : String} {p : Param}
    (h : lookupParameter e n = some p) : p.name = some n :=
  lookupParamList_name h

theorem lookup_replaceFirst {ps : List Param} {n : String} {p q : Param}
    (h : lookupParamList ps n = some p) (hq : q.name = some n) :
    lookupParamList (replaceFirstParam ps n q) n = some q := by
  induction ps with
  | nil => simp [lookupParamList] at h
  | cons a as ih =>
    simp only [lookupParamList, replaceFirstParam] at h ⊢
    by_cases ha : a.name = some n
    · rw [if_pos ha]
      simp [lookupParamList, hq]
    · rw [if_neg ha] at h ⊢
      simp only [lookupParamList, if_neg ha]
      exact ih h

theorem hostGetValue_ok {h : Host} {p : Param} {v : PyVal}
    (hg : hostGetValue h p = Except.ok v) : v = getParamValue p := by
  simp only [hostGetValue] at hg
  cases hf : h.getFails p <;> rw [hf] at hg
  · cases hg
    rfl
  · cases hg

theorem hostSet_ok {h : Host} {p q : Param} {v : PyVal}
    (hs : hostSet h p v = Except.ok q) : q = { p with value := v } := by
  simp only [hostSet] at hs
  cases hf : h.setFails p v <;> rw [hf] at hs
  · cases hs
    rfl
  · cases hs

theorem hostSet_map_ok {h : Host} {p p2 : Param} {v : PyVal} {b : Bool}
    (hs : (hostSet h p v).map (fun q => (q, true)) = Except.ok (p2, b)) :
    p2 = { p with value := v } ∧ b = true := by
  cases hh : hostSet h p v <;> simp only [hh, Except.map] at hs
  · cases hs
  · cases hs
    exact ⟨hostSet_ok hh, rfl⟩

theorem setParamValue_ok_true {h : Host} {p : Param} {v : PyVal} {p2 : Param}
    (hs : setParamValue h p v = Except.ok (p2, true)) :
    p2 = { p with value :=
        if p.storageType = StorageType.string ∧ v = PyVal.none then PyVal.str "" else v } ∧
      p.storageType ≠ StorageType.noneType := by
  obtain ⟨nm, st, ro, val⟩ := p
  cases st <;> simp only [setParamValue] at hs
  case double =>
    obtain ⟨h1, _⟩ := hostSet_map_ok hs
    exact ⟨by rw [h1]; simp, by simp⟩
  case integer =>
    obtain ⟨h1, _⟩ := hostSet_map_ok hs
    exact ⟨by rw [h1]; simp, by simp⟩
  case elementId =>
    obtain ⟨h1, _⟩ := hostSet_map_ok hs
    exact ⟨by rw [h1]; simp, by simp⟩
  case string =>
    obtain ⟨h1, _⟩ := hostSet_map_ok hs
    exact ⟨by rw [h1]; simp, by simp⟩
  case noneType => simp at hs

theorem tryCopyCore_ok_true {h : Host} {d : Doc} {sp tp tp2 : Param} {why : String}
    (hc : tryCopyCore h d sp tp = Except.ok (tp2, true, why)) :
    tp2 = { tp with value :=
        if tp.storageType = StorageType.string ∧ getParamValue sp = PyVal.none
        then PyVal.str "" else getParamValue sp } ∧
      tp.storageType ≠ StorageType.noneType := by
  simp only [tryCopyCore] at hc
  cases hg : hostGetValue h sp with
  | error e =>
    simp only [hg] at hc
    cases hc
  | ok val =>
  simp only [hg] at hc
  by_cases hu : unresolvedRef d sp val = true
  · rw [if_pos hu] at hc
    simp at hc
  · rw [if_neg hu] at hc
    cases hs : setParamValue h tp val with
    | error e2 =>
      simp only [hs] at hc
      cases hc
    | ok pr =>
      simp only [hs] at hc
      obtain ⟨q, b⟩ := pr
      cases b
      · simp only [Bool.false_eq_true, if_false] at hc
        cases hc
      · simp only [if_pos rfl] at hc
        cases hc
        rw [← hostGetValue_ok hg]
        exact setParamValue_ok_true hs

theorem getParamValue_of_known {p : Param} (h : p.storageType ≠ StorageType.noneType) :
    getParamValue p = p.value := by
  cases hst : p.storageType <;> simp only [getParamValue, hst]
  exact absurd hst h

theorem tryCopyByName_ok_true {h : Host} {d : Doc} {src dst : Element} {n : String}
    {dst2 : Element} {why : String}
    (hok : tryCopyByName h d src dst n = (dst2, true, why)) :
    ∃ sp tp tp2, lookupParameter src (cleanS n) = some sp ∧
      lookupParameter dst (cleanS n) = some tp ∧
      sp.storageType = tp.storageType ∧
      tryCopyCore h d sp tp = Except.ok (tp2, true, why) ∧
      dst2 = setLookedUp dst (cleanS n) tp2 := by
  simp only [tryCopyByName] at hok
  split at hok
  · simp at hok
  · split at hok
    · simp at hok
    · simp at hok
    · rename_i sp tp hsp htp
      split at hok
      · simp at hok
      · split at hok
        · simp at hok
        · rename_i hro hty
          split at hok
          · simp at hok
          · rename_i tp2 ok why2 hcore
            simp only [Prod.mk.injEq] at hok
            obtain ⟨h1, h2, h3⟩ := hok
            subst h2
            subst h3
            exact ⟨sp, tp, tp2, hsp, htp, not_not.mp hty, hcore, h1.symm⟩

/-- Counterexample to claim C3 as stated: when the source's String
parameter holds a null value (`AsString()` returns `None`), the copy
succeeds (`ok = true`), but reading the parameter back off the
destination yields the empty string, which is not equal to the `None`
read off the source before the copy — so the round-trip is not
"exactly equal" for the String storage type. -/
theorem copyField_roundtrip_counterexample :
    (tryCopyByName ⟨fun _ => Option.none, fun _ _ => Option.none⟩ []
        ⟨1, [⟨some "Mark", StorageType.string, false, PyVal.none⟩]⟩
        ⟨2, [⟨some "Mark", StorageType.string, false, PyVal.str "X"⟩]⟩ "Mark").2.1 = true ∧
    (lookupParameter (tryCopyByName ⟨fun _ => Option.none, fun _ _ => Option.none⟩ []
        ⟨1, [⟨some "Mark", StorageType.string, false, PyVal.none⟩]⟩
        ⟨2, [⟨some "Mark", StorageType.string, false, PyVal.str "X"⟩]⟩ "Mark").1
        "Mark").map getParamValue ≠
      (lookupParameter ⟨1, [⟨some "Mark", StorageType.string, false, PyVal.none⟩]⟩
        "Mark").map getParamValue := by
  decide

/-- Claim C3, amended. After a successful copy (`ok = true`), reading the
same named parameter off the destination yields exactly the value read
off the source before the copy — for Double, Integer and String alike,
and for ElementId the identical id (hence the same resolved element) —
**except** in one case: when the storage type is String and the source
value was null, the destination reads back the empty string instead. -/
theorem copyField_roundtrip_amended (h : Host) (d : Doc) (src dst : Element) (n : String)
    (dst2 : Element) (why : String)
    (hok : tryCopyByName h d src dst n = (dst2, true, why)) :
    ∃ sp tp2, lookupParameter src (cleanS n) = some sp ∧
      lookupParameter dst2 (cleanS n) = some tp2 ∧
      (getParamValue tp2 = getParamValue sp ∨
        (sp.storageType = StorageType.string ∧ getParamValue sp = PyVal.none ∧
          getParamValue tp2 = PyVal.str "")) := by
  obtain ⟨sp, tp, tp2, hsp, htp, hty, hcore, hdst2⟩ := tryCopyByName_ok_true hok
  obtain ⟨htp2, hnn⟩ := tryCopyCore_ok_true hcore
  have hname : tp2.name = some (cleanS n) := by
    have h3 : tp.name = some (cleanS n) := lookupParameter_name htp
    rw [htp2]
    exact h3
  refine ⟨sp, tp2, hsp, ?_, ?_⟩
  · rw [hdst2]
    show lookupParamList (replaceFirstParam dst.params (cleanS n) tp2) (cleanS n) = some tp2
    exact lookup_replaceFirst htp hname
  · have hst2 : tp2.storageType = tp.storageType := by rw [htp2]
    have hval : getParamValue tp2 = tp2.value :=
      getParamValue_of_known (by rw [hst2]; exact hnn)
    by_cases hcond : tp.storageType = StorageType.string ∧ getParamValue sp = PyVal.none
    · refine Or.inr ⟨hty.trans hcond.1, hcond.2, ?_⟩
      rw [hval, htp2]
      simp [if_pos hcond]
    · refine Or.inl ?_
      rw [hval, htp2]
      simp [if_neg hcond]

/-- Witness for the amended C3 at a concrete successful String copy. -/
theorem copyField_roundtrip_amended_witness :
    ∃ sp tp2,
      lookupParameter ⟨1, [⟨some "Mark", StorageType.string, false, PyVal.str "A"⟩]⟩
        (cleanS "Mark") = some sp ∧
      lookupParameter ⟨2, [⟨some "Mark", StorageType.string, false, PyVal.str "A"⟩]⟩
        (cleanS "Mark") = some tp2 ∧
      (getParamValue tp2 = getParamValue sp ∨
        (sp.storageType = StorageType.string ∧ getParamValue sp = PyVal.none ∧
          getParamValue tp2 = PyVal.str "")) :=
  copyField_roundtrip_amended ⟨fun _ => Option.none, fun _ _ => Option.none⟩ []
    ⟨1, [⟨some "Mark", StorageType.string, false, PyVal.str "A"⟩]⟩
    ⟨2, [⟨some "Mark", StorageType.string, false, PyVal.str "B"⟩]⟩ "Mark"
    ⟨2, [⟨some "Mark", StorageType.string, false, PyVal.str "A"⟩]⟩ ""
    (by decide)

theorem isBlocked_pyLower (n : String) : isBlocked (pyLower n) = isBlocked n := by
  simp only [isBlocked, cleanS, pyStrip_pyLower, pyLower_idem]

theorem mem_paramNamesLower_fold {x : String} (ps : List Param) (acc : Finset String) :
    x ∈ ps.foldl
      (fun out p =>
        let n := cleanName p.name
        if n = "" ∨ isBlocked n then out else insert (pyLower n) out)
      acc ↔
    x ∈ acc ∨ ∃ p ∈ ps, cleanName p.name ≠ "" ∧ isBlocked (cleanName p.name) = false ∧
      x = pyLower (cleanName p.name) := by
  induction ps generalizing acc with
  | nil => simp
  | cons a as ih =>
    simp only [List.foldl_cons]
    rw [ih]
    by_cases hc : cleanName a.name = "" ∨ isBlocked (cleanName a.name) = true
    · rcases hc with hc | hc
      · simp [hc, List.exists_mem_cons_iff]
      · simp only [if_pos (Or.inr hc), List.exists_mem_cons_iff, hc]
        simp
    · push_neg at hc
      obtain ⟨hc1, hc2⟩ := hc
      have hc2' : isBlocked (cleanName a.name) = false := by
        cases hb : isBlocked (cleanName a.name)
        · rfl
        · exact absurd hb hc2
      rw [if_neg (by simp [hc1, hc2'] : ¬(cleanName a.name = "" ∨
        isBlocked (cleanName a.name) = true))]
      simp only [Finset.mem_insert, List.exists_mem_cons_iff, hc1, hc2', ne_eq,
        not_false_iff, true_and]
      constructor
      · rintro ((h | h) | h)
        · exact Or.inr (Or.inl h)
        · exact Or.inl h
        · exact Or.inr (Or.inr h)
      · rintro (h | h | h)
        · exact Or.inl (Or.inr h)
        · exact Or.inl (Or.inl h)
        · exact Or.inr h

/-- Claim C4. Every member of `_param_names_lower(elem)` is a non-empty
name that does not match — case-insensitively, after whitespace
trimming — any entry of `BLOCKED_NAMES` (`_is_blocked` is exactly that
matcher).  The element is arbitrary, so this holds even when the host's
parameter enumeration reports blocked or empty-named parameters. -/
theorem paramNameSet_excludes_blocked (e : Element) (x : String)
    (hx : x ∈ paramNamesLower e) : x ≠ "" ∧ isBlocked x = false := by
  rw [paramNamesLower, mem_paramNamesLower_fold] at hx
  rcases hx with hx | ⟨p, _, hne, hnb, hx⟩
  · simp at hx
  · subst hx
    exact ⟨pyLower_ne_empty hne, by rw [isBlocked_pyLower]; exact hnb⟩

/-- Witness for C4 on an element that carries a blocked parameter
(`"Arbeitsebene"`) next to an ordinary one. -/
theorem paramNameSet_excludes_blocked_witness :
    "mark" ≠ "" ∧ isBlocked "mark" = false :=
  paramNameSet_excludes_blocked
    ⟨1, [⟨some "Mark", StorageType.string, false, PyVal.str "A"⟩,
      ⟨some "Arbeitsebene", StorageType.string, false, PyVal.str "B"⟩]⟩
    "mark" (by decide)

/-! ## Catalogue lemmas (C7) -/

/-- Does parameter `p` validly contribute the catalogue key `k`? -/
def keyMatches (k : String) (p : Param) : Bool :=
  decide (cleanName p.name ≠ "") && !isBlocked (cleanName p.name) &&
    decide (pyLower (cleanName p.name) = k)

theorem assocLookup_append (m m2 : List (String × ParamDescriptor)) (k : String) :
    assocLookup (m ++ m2) k =
      match assocLookup m k with
      | some d => some d
      | Option.none => assocLookup m2 k := by
  induction m with
  | nil => simp [assocLookup]
  | cons kv rest ih =>
    simp only [List.cons_append, assocLookup]
    by_cases hk : kv.1 = k
    · rw [if_pos hk, if_pos hk]
    · rw [if_neg hk, if_neg hk]
      exact ih

theorem buildMapAux_lookup (ps : List Param) (m : List (String × ParamDescriptor))
    (k : String) :
    assocLookup (buildMapAux m ps) k =
      match assocLookup m k with
      | some d => some d
      | Option.none =>
        (ps.find? (keyMatches k)).map fun p => descOf p (cleanName p.name) := by
  induction ps generalizing m with
  | nil =>
    cases h : assocLookup m k <;> simp [buildMapAux, h]
  | cons p ps ih =>
    simp only [buildMapAux]
    by_cases hv : cleanName p.name = "" ∨ isBlocked (cleanName p.name) = true
    · rw [if_pos hv, ih]
      have hkm : keyMatches k p = false := by
        rcases hv with hv | hv <;> simp [keyMatches, hv]
      rw [List.find?_cons_of_neg _ (by simp [hkm])]
    · rw [if_neg hv]
      push_neg at hv
      obtain ⟨hv1, hv2⟩ := hv
      have hv2' : isBlocked (cleanName p.name) = false := by
        cases hb : isBlocked (cleanName p.name)
        · rfl
        · exact absurd hb hv2
      by_cases hk : pyLower (cleanName p.name) = k
      · have hkm : keyMatches k p = true := by simp [keyMatches, hv1, hv2', hk]
        rw [List.find?_cons_of_pos _ hkm]
        by_cases hm : (assocLookup m (pyLower (cleanName p.name))).isSome
        · rw [if_pos hm, ih]
          rw [hk] at hm
          obtain ⟨dsc, hdsc⟩ := Option.isSome_iff_exists.mp hm
          rw [hdsc]
        · rw [if_neg hm, ih, assocLookup_append]
          rw [hk] at hm
          have hmn : assocLookup m k = Option.none := by
            cases hmm : assocLookup m k
            · rfl
            · exact absurd (by rw [hmm]; rfl) hm
          rw [hmn]
          simp [assocLookup, hk]
      · have hkm : keyMatches k p = false := by simp [keyMatches, hk]
        rw [List.find?_cons_of_neg _ (by simp [hkm])]
        by_cases hm : (assocLookup m (pyLower (cleanName p.name))).isSome
        · rw [if_pos hm, ih]
        · rw [if_neg hm, ih, assocLookup_append]
          cases hmm : assocLookup m k
          · simp [assocLookup, hk]
          · rfl

theorem assocLookup_eq_none_of_not_mem {m : List (String × ParamDescriptor)} {k : String}
    (h : k ∉ m.map Prod.fst) : assocLookup m k = Option.none := by
  induction m with
  | nil => rfl
  | cons kv rest ih =>
    simp only [List.map_cons, List.mem_cons] at h
    push_neg at h
    simp only [assocLookup]
    rw [if_neg (fun he : kv.1 = k => h.1 he.symm)]
    exact ih h.2

theorem assocLookup_isSome_of_mem_keys {m : List (String × ParamDescriptor)} {k : String}
    (h : k ∈ m.map Prod.fst) : (assocLookup m k).isSome := by
  induction m with
  | nil => simp at h
  | cons kv rest ih =>
    simp only [List.map_cons, List.mem_cons] at h
    simp only [assocLookup]
    by_cases hk : kv.1 = k
    · rw [if_pos hk]
      rfl
    · rcases h with h | h
      · exact absurd h.symm hk
      · rw [if_neg hk]
        exact ih h

theorem buildMapAux_keys_nodup (ps : List Param) (m : List (String × ParamDescriptor))
    (hm : (m.map Prod.fst).Nodup) : ((buildMapAux m ps).map Prod.fst).Nodup := by
  induction ps generalizing m with
  | nil => exact hm
  | cons p ps ih =>
    simp only [buildMapAux]
    split
    · exact ih m hm
    · split
      · exact ih m hm
      · rename_i hnone
        refine ih _ ?_
        rw [List.map_append]
        rw [List.nodup_append]
        refine ⟨hm, by simp, ?_⟩
        intro a ha hb
        simp only [List.map_cons, List.map_nil, List.mem_singleton] at hb
        subst hb
        exact hnone (assocLookup_isSome_of_mem_keys ha)

theorem buildMapAux_entry_valid (ps : List Param) (m : List (String × ParamDescriptor))
    (hm : ∀ kv ∈ m, kv.1 ≠ "" ∧ isBlocked kv.1 = false) :
    ∀ kv ∈ buildMapAux m ps, kv.1 ≠ "" ∧ isBlocked kv.1 = false := by
  induction ps generalizing m with
  | nil => exact hm
  | cons p ps ih =>
    simp only [buildMapAux]
    split
    · exact ih m hm
    · split
      · exact ih m hm
      · rename_i hval hnone
        refine ih _ ?_
        intro kv hkv
        rcases List.mem_append.mp hkv with hkv | hkv
        · exact hm kv hkv
        · simp only [List.mem_singleton] at hkv
          subst hkv
          push_neg at hval
          refine ⟨pyLower_ne_empty hval.1, ?_⟩
          rw [isBlocked_pyLower]
          cases hb : isBlocked (cleanName p.name)
          · rfl
          · exact absurd hb hval.2

/-- Claim C7. The catalogue `_build_source_param_map` holds at most one
descriptor per lower-cased name (its key list has no duplicates); the
descriptor found under a key is exactly the one built from the *first*
parameter, in enumeration order, whose cleaned name is non-empty, not
blocked, and lowers to that key — so when several parameters differ
only in case, the first occurrence wins and later ones are ignored;
and no empty or blocked key is ever entered. -/
theorem buildSourceCatalogue_spec (src : Element) (k : String) :
    (assocLookup (buildSourceParamMap src) k =
      (src.params.find? (keyMatches k)).map fun p => descOf p (cleanName p.name)) ∧
    ((buildSourceParamMap src).map Prod.fst).Nodup ∧
    (∀ kv ∈ buildSourceParamMap src, kv.1 ≠ "" ∧ isBlocked kv.1 = false) := by
  refine ⟨?_, ?_, ?_⟩
  · rw [buildSourceParamMap, buildMapAux_lookup]
    rfl
  · exact buildMapAux_keys_nodup _ _ (by simp)
  · exact buildMapAux_entry_valid _ _ (by simp)

/-- Witness for C7 on a source that exposes `"Mark"` and `"MARK"`
(same lower-cased key): the catalogue returns the first descriptor. -/
theorem buildSourceCatalogue_spec_witness :
    ("mark" : String) ≠ "" ∧ isBlocked "mark" = false :=
  (buildSourceCatalogue_spec
      ⟨1, [⟨some "Mark", StorageType.string, false, PyVal.str "A"⟩,
        ⟨some "MARK", StorageType.double, true, PyVal.float 2⟩]⟩ "mark").2.2
    ("mark", ⟨"Mark", "Mark   [String | RW]"⟩) (by decide)

/-! ## Intersection lemmas (C8) -/

theorem mem_commonKeysFrom {x : String} (d : Doc) (l : List Int) (acc : Finset String) :
    x ∈ commonKeysFrom d acc l ↔
      x ∈ acc ∧ ∀ tid ∈ l, ∀ t, getElem d tid = some t → x ∈ paramNamesLower t := by
  induction l generalizing acc with
  | nil => simp [commonKeysFrom]
  | cons tid rest ih =>
    simp only [commonKeysFrom, List.foldl_cons] at ih ⊢
    cases hg : getElem d tid with
    | none =>
      rw [ih]
      simp only [List.forall_mem_cons, hg]
      constructor
      · rintro ⟨hx, hall⟩
        refine ⟨hx, ⟨fun t ht => ?_, hall⟩⟩
        cases ht
      · rintro ⟨hx, _, hall⟩
        exact ⟨hx, hall⟩
    | some t =>
      rw [ih]
      simp only [List.forall_mem_cons, hg, Finset.mem_inter]
      constructor
      · rintro ⟨⟨hx, hxt⟩, hall⟩
        refine ⟨hx, fun t2 ht2 => ?_, hall⟩
        cases ht2
        exact hxt
      · rintro ⟨hx, hfirst, hall⟩
        exact ⟨⟨hx, hfirst t rfl⟩, hall⟩

/-- Claim C8. The selectable common-name set is invariant under
permutations of the target list: picking the targets in any order
(e.g. `[T1, T2]` versus `[T2, T1]`) yields the same intersection. -/
theorem commonKeys_perm_invariant (d : Doc) (src : Element) (l1 l2 : List Int)
    (hperm : l1.Perm l2) : commonKeys d src l1 = commonKeys d src l2 := by
  ext x
  simp only [commonKeys, mem_commonKeysFrom]
  constructor
  · rintro ⟨hx, hall⟩
    exact ⟨hx, fun tid htid => hall tid (hperm.mem_iff.mpr htid)⟩
  · rintro ⟨hx, hall⟩
    exact ⟨hx, fun tid htid => hall tid (hperm.mem_iff.mp htid)⟩

/-- Witness for C8: two concrete targets picked in both orders give the
same selectable set. -/
theorem commonKeys_perm_invariant_witness :
    commonKeys
        [⟨1, [⟨some "Mark", StorageType.string, false, PyVal.str "A"⟩]⟩,
          ⟨2, [⟨some "Mark", StorageType.string, false, PyVal.str "B"⟩]⟩,
          ⟨3, [⟨some "Mark", StorageType.string, false, PyVal.str "C"⟩]⟩]
        ⟨1, [⟨some "Mark", StorageType.string, false, PyVal.str "A"⟩]⟩ [2, 3] =
      commonKeys
        [⟨1, [⟨some "Mark", StorageType.string, false, PyVal.str "A"⟩]⟩,
          ⟨2, [⟨some "Mark", StorageType.string, false, PyVal.str "B"⟩]⟩,
          ⟨3, [⟨some "Mark", StorageType.string, false, PyVal.str "C"⟩]⟩]
        ⟨1, [⟨some "Mark", StorageType.string, false, PyVal.str "A"⟩]⟩ [3, 2] :=
  commonKeys_perm_invariant _ _ _ _ (List.Perm.swap 3 2 [])

/-- Claim C9. The storage-type dispatch of `_set_param_value`:
(i) for a String-typed parameter a `None` source value is replaced by
the empty string before the write, so the call behaves exactly as a
write of `""` — the host `Set` is never handed a null value, as the
written value `(if v = None then "" else v)` is never `None`;
(ii) for Double, Integer and ElementId the value is written exactly as
read; (iii) for an unrecognized storage kind nothing is written and the
dispatch reports `False` (the "unsupported" outcome). -/
theorem setParamValue_dispatch (h : Host) (p : Param) (v : PyVal) :
    (p.storageType = StorageType.string →
      setParamValue h p PyVal.none = setParamValue h p (PyVal.str "")) ∧
    (p.storageType = StorageType.string →
      h.setFails p (if v = PyVal.none then PyVal.str "" else v) = Option.none →
      setParamValue h p v =
        Except.ok ({ p with value := if v = PyVal.none then PyVal.str "" else v }, true) ∧
      (if v = PyVal.none then PyVal.str "" else v) ≠ PyVal.none) ∧
    ((p.storageType = StorageType.double ∨ p.storageType = StorageType.integer ∨
        p.storageType = StorageType.elementId) →
      h.setFails p v = Option.none →
      setParamValue h p v = Except.ok ({ p with value := v }, true)) ∧
    (p.storageType = StorageType.noneType →
      setParamValue h p v = Except.ok (p, false)) := by
  refine ⟨?_, ?_, ?_, ?_⟩
  · intro hst
    simp [setParamValue, hst]
  · intro hst hok
    constructor
    · simp only [setParamValue, hst, hostSet, hok, Except.map]
    · by_cases hv : v = PyVal.none
      · simp [hv]
      · simp [hv]
  · intro hst hok
    rcases hst with hst | hst | hst <;>
      simp only [setParamValue, hst, hostSet, hok, Except.map]
  · intro hst
    simp [setParamValue, hst]

/-- Witness for C9: writing a `None` value into a String-typed
parameter stores the empty string and reports `True`. -/
theorem setParamValue_dispatch_witness :
    setParamValue ⟨fun _ => Option.none, fun _ _ => Option.none⟩
        ⟨some "Mark", StorageType.string, false, PyVal.str "X"⟩ PyVal.none =
      Except.ok (⟨some "Mark", StorageType.string, false, PyVal.str ""⟩, true) :=
  ((setParamValue_dispatch ⟨fun _ => Option.none, fun _ _ => Option.none⟩
      ⟨some "Mark", StorageType.string, false, PyVal.str "X"⟩ PyVal.none).2.1
    rfl rfl).1

/-! ## Picking-loop lemmas (C10) -/

theorem toggleStep_not_mem_src (d : Doc) (srcId : Int) (ids : List Int) (eid : Int)
    (h : srcId ∉ ids) : srcId ∉ toggleStep d srcId ids eid := by
  cases hg : getElem d eid with
  | none =>
    simp only [toggleStep, hg]
    exact h
  | some e =>
    simp only [toggleStep, hg]
    by_cases he : e.id = srcId
    · rw [if_pos he]
      exact h
    · rw [if_neg he]
      by_cases hm : e.id ∈ ids
      · rw [if_pos hm]
        intro hmem
        exact h (List.mem_of_mem_erase hmem)
      · rw [if_neg hm]
        intro hmem
        rcases List.mem_append.mp hmem with h1 | h1
        · exact h h1
        · simp only [List.mem_singleton] at h1
          exact he h1.symm

theorem pickTargets_not_mem_src (d : Doc) (srcId : Int) (evs : List PickEvent) :
    ∀ ids, srcId ∉ ids → srcId ∉ pickTargets d srcId evs ids := by
  induction evs with
  | nil => exact fun ids h => h
  | cons ev rest ih =>
    intro ids h
    cases ev with
    | cancelled => exact h
    | picked eid => exact ih _ (toggleStep_not_mem_src d srcId ids eid h)

/-- Claim C10. The source element is never a copy destination:
(i) starting from the empty selection, the picked target-id list never
contains the source id (unresolvable picks and picks of the source are
discarded); (ii) picking the same (non-source, resolvable) element
twice in a row toggles it back off; (iii) hence any element fetched for
a picked target id during the apply phase has an id different from the
source's. -/
theorem source_never_target (d : Doc) (srcId : Int) (evs : List PickEvent) :
    srcId ∉ pickTargets d srcId evs [] ∧
    (∀ ids eid e, getElem d eid = some e → e.id ∉ ids →
      toggleStep d srcId (toggleStep d srcId ids eid) eid = ids) ∧
    (∀ (d2 : Doc) (tid : Int) (tgt : Element), tid ∈ pickTargets d srcId evs [] →
      getElem d2 tid = some tgt → tgt.id ≠ srcId) := by
  refine ⟨pickTargets_not_mem_src d srcId evs [] (by simp), ?_, ?_⟩
  · intro ids eid e hg hmem
    by_cases he : e.id = srcId
    · have h1 : toggleStep d srcId ids eid = ids := by
        simp only [toggleStep, hg]
        rw [if_pos he]
      rw [h1, h1]
    · have h1 : toggleStep d srcId ids eid = ids ++ [e.id] := by
        simp only [toggleStep, hg]
        rw [if_neg he, if_neg hmem]
      rw [h1]
      simp only [toggleStep, hg]
      rw [if_neg he,
        if_pos (List.mem_append.mpr (Or.inr (List.mem_singleton.mpr rfl))),
        List.erase_append_right _ hmem, List.erase_cons_head, List.append_nil]
  · intro d2 tid tgt htid hg hid
    have := pickTargets_not_mem_src d srcId evs [] (by simp)
    rw [getElem_eq_some_id hg] at hid
    exact this (hid ▸ htid)

/-- Witness for C10: with source id 1 and a document containing element
2, picking 2 twice toggles it off, and element 2 fetched for target
id 2 is distinct from the source. -/
theorem source_never_target_witness :
    toggleStep [⟨2, []⟩] 1 (toggleStep [⟨2, []⟩] 1 [] 2) 2 = [] :=
  (source_never_target [⟨2, []⟩] 1 []).2.1 [] 2 ⟨2, []⟩ (by decide) (by decide)

/-! ## Run-aggregation lemmas (C5, C6) -/

/-- Target ids that resolve to an element of the document. -/
def resolvedCount (d : Doc) (tids : List Int) : Nat :=
  (tids.filter fun i => (getElem d i).isSome).length

theorem getElem_fieldLoop_isSome (h : Host) (src : Element) (names : List String) :
    ∀ (d : Doc) (tgt : Element) (t : RunTotals) (okAny : Bool) (i : Int),
      (getElem (fieldLoop h src names d tgt t okAny).1 i).isSome =
        (getElem d i).isSome := by
  induction names with
  | nil =>
    intro d tgt t okAny i
    rfl
  | cons n ns ih =>
    intro d tgt t okAny i
    simp only [fieldLoop]
    split
    · rw [ih, getElem_updateElem_isSome]
    · rw [ih, getElem_updateElem_isSome]

theorem fieldLoop_sets_counts (h : Host) (src : Element) (names : List String) :
    ∀ (d : Doc) (tgt : Element) (t : RunTotals) (okAny : Bool),
      (fieldLoop h src names d tgt t okAny).2.2.1.setsOk +
        (fieldLoop h src names d tgt t okAny).2.2.1.setsFail =
        t.setsOk + t.setsFail + names.length := by
  induction names with
  | nil =>
    intro d tgt t okAny
    rfl
  | cons n ns ih =>
    intro d tgt t okAny
    simp only [fieldLoop]
    split
    · rw [ih]
      simp only [List.length_cons]
      omega
    · rw [ih]
      simp only [List.length_cons]
      omega

theorem fieldLoop_elem_counts (h : Host) (src : Element) (names : List String) :
    ∀ (d : Doc) (tgt : Element) (t : RunTotals) (okAny : Bool),
      (fieldLoop h src names d tgt t okAny).2.2.1.elemUpdated = t.elemUpdated ∧
      (fieldLoop h src names d tgt t okAny).2.2.1.elemSkipped = t.elemSkipped := by
  induction names with
  | nil =>
    intro d tgt t okAny
    exact ⟨rfl, rfl⟩
  | cons n ns ih =>
    intro d tgt t okAny
    simp only [fieldLoop]
    split
    · obtain ⟨ih1, ih2⟩ := ih _ _ _ true
      rw [ih1, ih2]
      exact ⟨rfl, rfl⟩
    · obtain ⟨ih1, ih2⟩ := ih _ _ _ okAny
      rw [ih1, ih2]
      exact ⟨rfl, rfl⟩

theorem fieldLoop_setsOk_le (h : Host) (src : Element) (names : List String) :
    ∀ (d : Doc) (tgt : Element) (t : RunTotals) (okAny : Bool),
      t.setsOk ≤ (fieldLoop h src names d tgt t okAny).2.2.1.setsOk := by
  induction names with
  | nil =>
    intro d tgt t okAny
    exact Nat.le_refl _
  | cons n ns ih =>
    intro d tgt t okAny
    simp only [fieldLoop]
    split
    · exact Nat.le_trans (Nat.le_succ _)
        (ih (updateElem d (tryCopyByName h d src tgt n).1) (tryCopyByName h d src tgt n).1
          { t with setsOk := t.setsOk + 1 } true)
    · exact ih (updateElem d (tryCopyByName h d src tgt n).1) (tryCopyByName h d src tgt n).1
        { t with
          setsFail := t.setsFail + 1
          failSamples :=
            if (tryCopyByName h d src tgt n).2.2 ∈ sampledReasons ∧
                t.failSamples.length < 10 then
              t.failSamples ++ [n ++ " -> " ++ (tryCopyByName h d src tgt n).2.2]
            else t.failSamples } okAny

theorem fieldLoop_okAny_iff (h : Host) (src : Element) (names : List String) :
    ∀ (d : Doc) (tgt : Element) (t : RunTotals) (okAny : Bool),
      (fieldLoop h src names d tgt t okAny).2.2.2 =
        (okAny || decide (t.setsOk < (fieldLoop h src names d tgt t okAny).2.2.1.setsOk)) := by
  induction names with
  | nil =>
    intro d tgt t okAny
    simp [fieldLoop]
  | cons n ns ih =>
    intro d tgt t okAny
    simp only [fieldLoop]
    split
    · rw [ih]
      have hle := fieldLoop_setsOk_le h src ns
        (updateElem d (tryCopyByName h d src tgt n).1) (tryCopyByName h d src tgt n).1
        { t with setsOk := t.setsOk + 1 } true
      have hlt : t.setsOk <
          (fieldLoop h src ns (updateElem d (tryCopyByName h d src tgt n).1)
            (tryCopyByName h d src tgt n).1 { t with setsOk := t.setsOk + 1 }
            true).2.2.1.setsOk := by
        simp only at hle
        omega
      simp [hlt]
    · rw [ih]

theorem fieldLoop_samples (h : Host) (src : Element) (names : List String) :
    ∀ (d : Doc) (tgt : Element) (t : RunTotals) (okAny : Bool),
      (t.failSamples.length ≤ 10 →
        (fieldLoop h src names d tgt t okAny).2.2.1.failSamples.length ≤ 10) ∧
      ((∀ s ∈ t.failSamples, ∃ pn why, why ∈ sampledReasons ∧ s = pn ++ " -> " ++ why) →
        ∀ s ∈ (fieldLoop h src names d tgt t okAny).2.2.1.failSamples,
          ∃ pn why, why ∈ sampledReasons ∧ s = pn ++ " -> " ++ why) := by
  induction names with
  | nil =>
    intro d tgt t okAny
    exact ⟨fun hl => hl, fun hs => hs⟩
  | cons n ns ih =>
    intro d tgt t okAny
    simp only [fieldLoop]
    split
    · exact ih (updateElem d (tryCopyByName h d src tgt n).1) (tryCopyByName h d src tgt n).1
        { t with setsOk := t.setsOk + 1 } true
    · obtain ⟨ih1, ih2⟩ := ih (updateElem d (tryCopyByName h d src tgt n).1)
        (tryCopyByName h d src tgt n).1
        { t with
          setsFail := t.setsFail + 1
          failSamples :=
            if (tryCopyByName h d src tgt n).2.2 ∈ sampledReasons ∧
                t.failSamples.length < 10 then
              t.failSamples ++ [n ++ " -> " ++ (tryCopyByName h d src tgt n).2.2]
            else t.failSamples } okAny
      constructor
      · intro hl
        refine ih1 ?_
        simp only
        split
        · rename_i hcond
          simp only [List.length_append, List.length_cons, List.length_nil]
          omega
        · exact hl
      · intro hs
        refine ih2 ?_
        simp only
        split
        · rename_i hcond
          intro s hsmem
          rcases List.mem_append.mp hsmem with hm | hm
          · exact hs s hm
          · simp only [List.mem_singleton] at hm
            exact ⟨n, (tryCopyByName h d src tgt n).2.2, hcond.1, hm⟩
        · exact hs

theorem applyLoop_elem_counts (h : Host) (src : Element) (names : List String) :
    ∀ (tids : List Int) (d : Doc) (t : RunTotals),
      (applyLoop h src names tids d t).2.elemUpdated +
        (applyLoop h src names tids d t).2.elemSkipped =
        t.elemUpdated + t.elemSkipped + tids.length := by
  intro tids
  induction tids with
  | nil =>
    intro d t
    rfl
  | cons tid rest ih =>
    intro d t
    cases hg : getElem d tid with
    | none =>
      simp only [applyLoop, hg]
      rw [ih]
      simp only [List.length_cons]
      omega
    | some tgt =>
      simp only [applyLoop, hg]
      obtain ⟨he1, he2⟩ := fieldLoop_elem_counts h src names d tgt t false
      split
      · rw [ih]
        simp only [List.length_cons]
        omega
      · rw [ih]
        simp only [List.length_cons]
        omega

theorem applyLoop_sets_counts (h : Host) (src : Element) (names : List String) :
    ∀ (tids : List Int) (d : Doc) (t : RunTotals),
      (applyLoop h src names tids d t).2.setsOk +
        (applyLoop h src names tids d t).2.setsFail =
        t.setsOk + t.setsFail + resolvedCount d tids * names.length := by
  intro tids
  induction tids with
  | nil =>
    intro d t
    simp [applyLoop, resolvedCount]
  | cons tid rest ih =>
    intro d t
    cases hg : getElem d tid with
    | none =>
      simp only [applyLoop, hg]
      rw [ih]
      have hrc : resolvedCount d (tid :: rest) = resolvedCount d rest := by
        simp [resolvedCount, List.filter_cons, hg]
      rw [hrc]
    | some tgt =>
      simp only [applyLoop, hg]
      have hrc : resolvedCount d (tid :: rest) = resolvedCount d rest + 1 := by
        simp [resolvedCount, List.filter_cons, hg]
      have hsets := fieldLoop_sets_counts h src names d tgt t false
      have hrc2 : resolvedCount (fieldLoop h src names d tgt t false).1 rest =
          resolvedCount d rest := by
        simp only [resolvedCount]
        rw [List.filter_congr
          (fun i _ => getElem_fieldLoop_isSome h src names d tgt t false i)]
      have hmul : (resolvedCount d rest + 1) * names.length =
          resolvedCount d rest * names.length + names.length := by ring
      split
      · rw [ih, hrc, hrc2, hmul]
        dsimp only
        omega
      · rw [ih, hrc, hrc2, hmul]
        dsimp only
        omega

theorem applyLoop_samples (h : Host) (src : Element) (names : List String) :
    ∀ (tids : List Int) (d : Doc) (t : RunTotals),
      (t.failSamples.length ≤ 10 →
        (applyLoop h src names tids d t).2.failSamples.length ≤ 10) ∧
      ((∀ s ∈ t.failSamples, ∃ pn why, why ∈ sampledReasons ∧ s = pn ++ " -> " ++ why) →
        ∀ s ∈ (applyLoop h src names tids d t).2.failSamples,
          ∃ pn why, why ∈ sampledReasons ∧ s = pn ++ " -> " ++ why) := by
  intro tids
  induction tids with
  | nil =>
    intro d t
    exact ⟨fun x => x, fun x => x⟩
  | cons tid rest ih =>
    intro d t
    cases hg : getElem d tid with
    | none =>
      simp only [applyLoop, hg]
      obtain ⟨ih1, ih2⟩ := ih d { t with elemSkipped := t.elemSkipped + 1 }
      exact ⟨fun hl => ih1 hl, fun hs => ih2 hs⟩
    | some tgt =>
      simp only [applyLoop, hg]
      obtain ⟨f1, f2⟩ := fieldLoop_samples h src names d tgt t false
      split
      · obtain ⟨ih1, ih2⟩ := ih (fieldLoop h src names d tgt t false).1
          { (fieldLoop h src names d tgt t false).2.2.1 with
            elemUpdated := (fieldLoop h src names d tgt t false).2.2.1.elemUpdated + 1 }
        exact ⟨fun hl => ih1 (f1 hl), fun hs => ih2 (f2 hs)⟩
      · obtain ⟨ih1, ih2⟩ := ih (fieldLoop h src names d tgt t false).1
          { (fieldLoop h src names d tgt t false).2.2.1 with
            elemSkipped := (fieldLoop h src names d tgt t false).2.2.1.elemSkipped + 1 }
        exact ⟨fun hl => ih1 (f1 hl), fun hs => ih2 (f2 hs)⟩

/-- Claim C5. Unexpected host failures are confined to the single field:
(i) whenever the `try:` body of `_try_copy_by_name` raises (while
reading the source value or writing the target value), the function
catches it and returns `(false, <error message>)` with the destination
untouched, instead of propagating; (ii) the per-name loop still
accounts for every selected name — for *every* host oracle, including
ones whose reads and writes always raise — incrementing exactly one of
`sets_ok`/`sets_fail` per name; (iii) likewise the per-target loop
still accounts for every target id, so no per-field failure ever aborts
the remaining names or the remaining targets. -/
theorem perField_failures_never_abort :
    (∀ (h : Host) (d : Doc) (src dst : Element) (n : String) (sp tp : Param) (e : String),
      ¬(cleanS n = "" ∨ isBlocked (cleanS n) = true) →
      lookupParameter src (cleanS n) = some sp →
      lookupParameter dst (cleanS n) = some tp →
      tp.isReadOnly = false →
      sp.storageType = tp.storageType →
      tryCopyCore h d sp tp = Except.error e →
      tryCopyByName h d src dst n = (dst, false, e)) ∧
    (∀ (h : Host) (src : Element) (names : List String) (d : Doc) (tgt : Element)
        (t : RunTotals) (okAny : Bool),
      (fieldLoop h src names d tgt t okAny).2.2.1.setsOk +
        (fieldLoop h src names d tgt t okAny).2.2.1.setsFail =
        t.setsOk + t.setsFail + names.length) ∧
    (∀ (h : Host) (src : Element) (names : List String) (tids : List Int) (d : Doc)
        (t : RunTotals),
      (applyLoop h src names tids d t).2.elemUpdated +
        (applyLoop h src names tids d t).2.elemSkipped =
        t.elemUpdated + t.elemSkipped + tids.length) := by
  refine ⟨?_, ?_, ?_⟩
  · intro h d src dst n sp tp e hnb hsp htp hro hty hcore
    simp only [tryCopyByName]
    rw [if_neg hnb]
    simp only [hsp, htp]
    rw [if_neg (by simp [hro]), if_neg (by simp [hty])]
    simp only [hcore]
  · exact fun h src names d tgt t okAny => fieldLoop_sets_counts h src names d tgt t okAny
  · exact fun h src names tids d t => applyLoop_elem_counts h src names tids d t

/-- Witness for C5: a host whose write always raises `"boom"` still
yields `(false, "boom")` from the per-field copy, target untouched. -/
theorem perField_failures_never_abort_witness :
    tryCopyByName ⟨fun _ => Option.none, fun _ _ => some "boom"⟩
        [] ⟨1, [⟨some "Mark", StorageType.string, false, PyVal.str "A"⟩]⟩
        ⟨2, [⟨some "Mark", StorageType.string, false, PyVal.str "B"⟩]⟩ "Mark" =
      (⟨2, [⟨some "Mark", StorageType.string, false, PyVal.str "B"⟩]⟩, false, "boom") :=
  perField_failures_never_abort.1 ⟨fun _ => Option.none, fun _ _ => some "boom"⟩
    [] ⟨1, [⟨some "Mark", StorageType.string, false, PyVal.str "A"⟩]⟩
    ⟨2, [⟨some "Mark", StorageType.string, false, PyVal.str "B"⟩]⟩ "Mark"
    ⟨some "Mark", StorageType.string, false, PyVal.str "A"⟩
    ⟨some "Mark", StorageType.string, false, PyVal.str "B"⟩ "boom"
    (by decide) (by decide) (by decide) (by decide) (by decide) (by rfl)

/-- Counterexample to claim C6 as stated: the sampling filter tests the
reason *string* (`why in ("missing", "read-only", "type mismatch",
"elementid not in doc")`), so a caught host exception whose message
happens to be `"missing"` *is* sampled.  Here the host write always
raises `"missing"`: the copy fails through the exception path
(`tryCopyCore` returns `Except.error "missing"`), yet the failure is
captured in `fail_samples` — contradicting "failures carrying
unexpected-exception message strings are never sampled". -/
theorem runAggregation_counterexample :
    tryCopyCore ⟨fun _ => Option.none, fun _ _ => some "missing"⟩
        [⟨1, [⟨some "Mark", StorageType.string, false, PyVal.str "A"⟩]⟩,
          ⟨2, [⟨some "Mark", StorageType.string, false, PyVal.str "B"⟩]⟩]
        ⟨some "Mark", StorageType.string, false, PyVal.str "A"⟩
        ⟨some "Mark", StorageType.string, false, PyVal.str "B"⟩ =
      Except.error "missing" ∧
    (applyLoop ⟨fun _ => Option.none, fun _ _ => some "missing"⟩
        ⟨1, [⟨some "Mark", StorageType.string, false, PyVal.str "A"⟩]⟩ ["Mark"] [2]
        [⟨1, [⟨some "Mark", StorageType.string, false, PyVal.str "A"⟩]⟩,
          ⟨2, [⟨some "Mark", StorageType.string, false, PyVal.str "B"⟩]⟩]
        initTotals).2.failSamples = ["Mark -> missing"] :=
  ⟨rfl, by decide⟩

/-- Claim C6, amended. Run aggregation: the per-field copy is invoked
once for each (resolvable target, selected name) pair and exactly one
of `sets_ok`/`sets_fail` is incremented per invocation, so their sum is
`resolvedCount · names.length`; every target id is accounted as updated
or skipped (sum = number of target ids); a resolvable target's field
loop reports success (`ok_any`, which drives the updated/skipped
decision) exactly when at least one of its fields copied successfully
(`sets_ok` strictly grew); at most 10 failures are sampled and every
sample's reason string is one of {missing, read-only, type mismatch,
elementid not in doc} — a caught exception is sampled exactly when its
message collides with one of those strings, and otherwise never. -/
theorem runAggregation_amended (h : Host) (src : Element) (names : List String)
    (d : Doc) (tids : List Int) :
    ((applyLoop h src names tids d initTotals).2.setsOk +
      (applyLoop h src names tids d initTotals).2.setsFail =
      resolvedCount d tids * names.length) ∧
    ((applyLoop h src names tids d initTotals).2.elemUpdated +
      (applyLoop h src names tids d initTotals).2.elemSkipped = tids.length) ∧
    ((applyLoop h src names tids d initTotals).2.failSamples.length ≤ 10) ∧
    (∀ s ∈ (applyLoop h src names tids d initTotals).2.failSamples,
      ∃ pn why, why ∈ sampledReasons ∧ s = pn ++ " -> " ++ why) ∧
    (∀ (d0 : Doc) (t0 : RunTotals) (tid : Int) (tgt : Element),
      getElem d0 tid = some tgt →
      ((fieldLoop h src names d0 tgt t0 false).2.2.2 = true ↔
        t0.setsOk < (fieldLoop h src names d0 tgt t0 false).2.2.1.setsOk)) := by
  refine ⟨?_, ?_, ?_, ?_, ?_⟩
  · have hs := applyLoop_sets_counts h src names tids d initTotals
    simpa [initTotals] using hs
  · have hs := applyLoop_elem_counts h src names tids d initTotals
    simpa [initTotals] using hs
  · exact (applyLoop_samples h src names tids d initTotals).1 (by simp [initTotals])
  · exact (applyLoop_samples h src names tids d initTotals).2 (by simp [initTotals])
  · intro d0 t0 tid tgt _
    rw [fieldLoop_okAny_iff h src names d0 tgt t0 false]
    simp

/-- Witness for the amended C6 at a concrete one-target, one-name run:
the field loop reports success exactly when `sets_ok` grew. -/
theorem runAggregation_amended_witness :
    (fieldLoop ⟨fun _ => Option.none, fun _ _ => Option.none⟩
        ⟨1, [⟨some "Mark", StorageType.string, false, PyVal.str "A"⟩]⟩ ["Mark"]
        [⟨1, [⟨some "Mark", StorageType.string, false, PyVal.str "A"⟩]⟩,
          ⟨2, [⟨some "Mark", StorageType.string, false, PyVal.str "B"⟩]⟩]
        ⟨2, [⟨some "Mark", StorageType.string, false, PyVal.str "B"⟩]⟩
        initTotals false).2.2.2 = true ↔
      initTotals.setsOk <
        (fieldLoop ⟨fun _ => Option.none, fun _ _ => Option.none⟩
          ⟨1, [⟨some "Mark", StorageType.string, false, PyVal.str "A"⟩]⟩ ["Mark"]
          [⟨1, [⟨some "Mark", StorageType.string, false, PyVal.str "A"⟩]⟩,
            ⟨2, [⟨some "Mark", StorageType.string, false, PyVal.str "B"⟩]⟩]
          ⟨2, [⟨some "Mark", StorageType.string, false, PyVal.str "B"⟩]⟩
          initTotals false).2.2.1.setsOk :=
  (runAggregation_amended ⟨fun _ => Option.none, fun _ _ => Option.none⟩
      ⟨1, [⟨some "Mark", StorageType.string, false, PyVal.str "A"⟩]⟩ ["Mark"]
      [⟨1, [⟨some "Mark", StorageType.string, false, PyVal.str "A"⟩]⟩,
        ⟨2, [⟨some "Mark", StorageType.string, false, PyVal.str "B"⟩]⟩]
      [2]).2.2.2.2
    [⟨1, [⟨some "Mark", StorageType.string, false, PyVal.str "A"⟩]⟩,
      ⟨2, [⟨some "Mark", StorageType.string, false, PyVal.str "B"⟩]⟩]
    initTotals 2 ⟨2, [⟨some "Mark", StorageType.string, false, PyVal.str "B"⟩]⟩
    (by decide)

end ParamCopy
